import Mathlib

/-!
Verification development for the holdings-dashboard pipeline (`src/app.py`).

The program is a linear pandas pipeline: load a CSV (encoding fallback),
coerce text columns to numbers, filter rows (keyword + inclusive numeric
ranges), and compute aggregates and ranked views.  This file gives a
shallow embedding of that pipeline and settles the specification's claims
against it.

Modelled fragment (documented limits of the embedding):
* Cell values are rationals, strings, or null (pandas `NaN`).  Floats are
  modelled exactly by `ℚ`; the claims only involve exact decimal values.
* `pandas.to_numeric` string parsing is modelled for plain decimal
  literals (optional sign, digits, optional fractional part) plus the
  literal `"nan"`; exponents and infinities are outside the fragment.
* `Series.str.contains(pat, case=False)` uses `regex=True` in pandas; for
  patterns free of regex metacharacters (all patterns the spec exercises)
  the regex search coincides with case-insensitive substring search, which
  is what the embedding implements.
* `DataFrame.sort_values` is called by the program without `kind=`, so the
  relative order of tied keys is implementation-defined (numpy introsort).
  The embedding uses the stable order (ties keep input order), which is
  the order the specification mandates; claim C1 records the divergence.
-/

/-- Cell value in a data frame: a numeric value (`pandas` int/float),
a string (object dtype), or null (`NaN`). -/
inductive Value where
  | num (q : ℚ)
  | vstr (s : String)
  | null
deriving DecidableEq

/-- A row is the list of its cells, aligned with the column list. -/
abbrev Row := List Value

/-- A data frame: column names plus row-major cells. -/
structure DataFrame where
  cols : List String
  rows : List Row
deriving DecidableEq

/-- Cell of a row at a column index; missing cells read as null. -/
def cell (r : Row) (i : ℕ) : Value := r.getD i .null

/-- Whitespace test matching Python `str.strip` on the ASCII whitespace
the data can contain. -/
def isWs (c : Char) : Bool := c = ' ' || c = '\t' || c = '\n' || c = '\r'

/-- Embeds Python `str.strip()`: drop leading and trailing whitespace. -/
def trimStr (s : String) : String :=
  ⟨((s.data.dropWhile isWs).reverse.dropWhile isWs).reverse⟩

/-- Embeds `.str.replace(",", "")`: remove every comma. -/
def stripCommas (s : String) : String :=
  ⟨s.data.filter (fun c => c ≠ ',')⟩

/-- ASCII lowercasing, the fragment of Python case-insensitivity the
spec's scenarios exercise. -/
def lowerStr (s : String) : String := ⟨s.data.map Char.toLower⟩

/-- Does list `l` start with list `p`? -/
def chStartsWith : List Char → List Char → Bool
  | [], _ => true
  | _ :: _, [] => false
  | a :: as, b :: bs => a = b && chStartsWith as bs

/-- Does `l` contain `p` as a contiguous sublist? -/
def chContains (p : List Char) : List Char → Bool
  | [] => chStartsWith p []
  | c :: cs => chStartsWith p (c :: cs) || chContains p cs

/-- Exact (case-sensitive) substring test, e.g. the filename hint test
`"국민연금" in p`. -/
def strContainsB (s pat : String) : Bool := chContains pat.data s.data

/-- Embeds `.str.contains(pat, case=False)` for literal patterns:
case-insensitive substring search (pandas compiles the pattern as a regex,
which is literal search for metacharacter-free patterns). -/
def strContainsCI (s pat : String) : Bool :=
  chContains (lowerStr pat).data (lowerStr s).data

/-- Embeds `Series.astype(str)` cell-wise: strings unchanged, missing
values print as `"nan"` (float `NaN` stringified), integral numbers print
without a fractional part. -/
def astypeStr : Value → String
  | .num q => if q.den = 1 then toString q.num else toString q
  | .vstr s => s
  | .null => "nan"

/-- Numeric value of a digit list, most significant first. -/
def digsVal (l : List Char) : ℕ :=
  l.foldl (fun n c => 10 * n + (c.toNat - 48)) 0

/-- Parse a plain decimal literal (optional sign, digits, optional
fractional part), the fragment of `pandas.to_numeric` string parsing the
data exercises; anything else fails. -/
def parseNum (s0 : String) : Option ℚ :=
  let l := (trimStr s0).data
  let sb : Bool × List Char :=
    match l with
    | '-' :: rest => (true, rest)
    | '+' :: rest => (false, rest)
    | _ => (false, l)
  let neg := sb.1
  let body := sb.2
  let ip := body.takeWhile (fun c => c ≠ '.')
  let rest := body.dropWhile (fun c => c ≠ '.')
  match rest with
  | [] =>
    if ip ≠ [] && ip.all Char.isDigit then
      some (((if neg then -(digsVal ip : ℤ) else (digsVal ip : ℤ)) : ℤ) : ℚ)
    else none
  | _ :: fp =>
    if (ip ≠ [] || fp ≠ []) && ip.all Char.isDigit && fp.all Char.isDigit then
      some ((if neg then (-1 : ℚ) else 1) *
        ((digsVal ip : ℚ) + (digsVal fp : ℚ) / (10 : ℚ) ^ fp.length))
    else none

/-- Scalar result of `pandas.to_numeric` on a string: `none` is a parse
failure, `some none` is a parsed `NaN` (the string `"nan"`, which
`astype(str)` produces from missing values), `some (some q)` a number. -/
def strToNumeric (s : String) : Option (Option ℚ) :=
  if trimStr s = "nan" then some none
  else (parseNum s).map some

/-- Embeds `pd.to_numeric(v, errors="coerce")` cell-wise: numbers pass
through, nulls and unparseable strings become `NaN` (`none`). -/
def toNumericCoerce : Value → Option ℚ
  | .num q => some q
  | .null => none
  | .vstr s =>
    match strToNumeric s with
    | some (some q) => some q
    | _ => none

/-- A column has object dtype when it holds at least one string cell;
purely numeric or all-null columns are numeric dtype in pandas. -/
def isObjectCol (vals : List Value) : Bool :=
  vals.any (fun v => match v with | .vstr _ => true | _ => false)

/-- Embeds one iteration of the normalization loop
(`df[c] = pd.to_numeric(df[c].astype(str).str.replace(",", ""), errors="ignore")`):
every cell is stringified and comma-stripped; if every resulting string
parses, the column becomes numeric, otherwise `errors="ignore"` hands back
its input, the comma-stripped string column. -/
def normalizeColVals (vals : List Value) : List Value :=
  let ss := vals.map (fun v => stripCommas (astypeStr v))
  if ss.all (fun s => (strToNumeric s).isSome) then
    ss.map (fun s =>
      match strToNumeric s with
      | some (some q) => .num q
      | _ => .null)
  else ss.map .vstr

/-! ### Filter engine (lines 89-97 of `app.py`) -/

/-- An active numeric range filter: column index and inclusive bounds. -/
structure RangeF where
  idx : ℕ
  lo : ℚ
  hi : ℚ

/-- Session filter parameters: search keyword, the name-column index, the
mandatory valuation range, and the optional ownership/weight ranges (a
range is `none` exactly when the column is absent or non-numeric, mirroring
`own_range = None` / `wgt_range = None`). -/
structure FilterParams where
  keyword : String
  nameIdx : ℕ
  valR : RangeF
  ownR : Option RangeF
  wgtR : Option RangeF

/-- Embeds the keyword filter
(`if keyword.strip(): df_f = df_f[df_f[name_col].astype(str).str.contains(keyword.strip(), case=False, na=False)]`).
Every cell, nulls included, is first stringified by `astype(str)`, so the
`na=False` default never fires. -/
def keywordStep (nameIdx : ℕ) (kw : String) (rows : List Row) : List Row :=
  if trimStr kw = "" then rows
  else rows.filter (fun r => strContainsCI (astypeStr (cell r nameIdx)) (trimStr kw))

/-- Embeds `Series.between(lo, hi, inclusive="both")` on a coerced value:
`NaN` compares false, bounds are inclusive. -/
def betweenB (v : Option ℚ) (lo hi : ℚ) : Bool :=
  match v with
  | none => false
  | some q => decide (lo ≤ q) && decide (q ≤ hi)

/-- Embeds one range-filter line
(`df_f = df_f[pd.to_numeric(df_f[c], errors="coerce").between(lo, hi, inclusive="both")]`). -/
def rangeStep (i : ℕ) (lo hi : ℚ) (rows : List Row) : List Row :=
  rows.filter (fun r => betweenB (toNumericCoerce (cell r i)) lo hi)

/-- Optional range step: applied only when the range exists, as the
`if own_range ...` / `if wgt_range ...` guards do. -/
def optRangeStep (oR : Option RangeF) (rows : List Row) : List Row :=
  match oR with
  | none => rows
  | some rg => rangeStep rg.idx rg.lo rg.hi rows

/-- Embeds the whole filter block: keyword filter, then the mandatory
valuation range, then the optional ownership and weight ranges. -/
def applyFilters (p : FilterParams) (rows : List Row) : List Row :=
  optRangeStep p.wgtR
    (optRangeStep p.ownR
      (rangeStep p.valR.idx p.valR.lo p.valR.hi
        (keywordStep p.nameIdx p.keyword rows)))

/-- Row predicate of the keyword step (true when the keyword is blank). -/
def kwPred (p : FilterParams) (r : Row) : Bool :=
  if trimStr p.keyword = "" then true
  else strContainsCI (astypeStr (cell r p.nameIdx)) (trimStr p.keyword)

/-- Row predicate of an optional range step. -/
def optRangePred (oR : Option RangeF) (r : Row) : Bool :=
  match oR with
  | none => true
  | some rg => betweenB (toNumericCoerce (cell r rg.idx)) rg.lo rg.hi

/-- The filter pipeline as a single conjunction of row predicates. -/
def pipePred (p : FilterParams) (r : Row) : Bool :=
  optRangePred p.wgtR r &&
    (optRangePred p.ownR r &&
      (betweenB (toNumericCoerce (cell r p.valR.idx)) p.valR.lo p.valR.hi &&
        kwPred p r))

/-! ### Stable sorting and ranked views (lines 117-130 and 167-174) -/

/-- Sort key of a cell in a numeric column: `NaN` for anything that is not
a stored number.  (`sort_values` on an object column compares raw Python
values; the program only sorts the numeric metric columns, which is the
fragment modelled here.) -/
def sortKey : Value → Option ℚ
  | .num q => some q
  | _ => none

/-- Strictly-before relation for descending order with `NaN`s last
(pandas `na_position="last"`). -/
def ltDesc (a b : Option ℚ) : Bool :=
  match a, b with
  | some x, some y => decide (y < x)
  | some _, none => true
  | none, _ => false

/-- Strictly-before relation for ascending order with `NaN`s last. -/
def ltAsc (a b : Option ℚ) : Bool :=
  match a, b with
  | some x, some y => decide (x < y)
  | some _, none => true
  | none, _ => false

/-- Insert `x` into a sorted list, after every element that is strictly
before it — the later-placed element never jumps over an equal one, so the
resulting sort is stable. -/
def insertIns (lt : α → α → Bool) (x : α) : List α → List α
  | [] => [x]
  | y :: ys => if lt y x then y :: insertIns lt x ys else x :: y :: ys

/-- Stable insertion sort by a strictly-before relation. -/
def insSortBy (lt : α → α → Bool) (l : List α) : List α :=
  l.foldr (insertIns lt) []

/-- Embeds `df_f.sort_values(col, ascending=asc)`: order rows by the
column's numeric key, `NaN`s last.  The program leaves `kind=` at its
default `"quicksort"`, whose tie order is implementation-defined; this
embedding fixes the stable tie order the specification mandates (claim C1
records the divergence). -/
def sortValues (i : ℕ) (asc : Bool) (rows : List Row) : List Row :=
  insSortBy
    (fun a b =>
      if asc then ltAsc (sortKey (cell a i)) (sortKey (cell b i))
      else ltDesc (sortKey (cell a i)) (sortKey (cell b i)))
    rows

/-- Projection of the ranked tables:
`[[name_col, val_col] + ([wgt_col] if wgt_col else []) + ([own_col] if own_col else [])]`. -/
def projCols (nameIdx valIdx : ℕ) (wgtIdx ownIdx : Option ℕ) (r : Row) : Row :=
  [cell r nameIdx, cell r valIdx]
    ++ (match wgtIdx with | some w => [cell r w] | none => [])
    ++ (match ownIdx with | some o => [cell r o] | none => [])

/-- Embeds the ranking table (line 173):
`df_f.sort_values(metric, ascending=asc).head(top_n)[[name_col, val_col] + ...]`. -/
def rankTable (nameIdx valIdx : ℕ) (wgtIdx ownIdx : Option ℕ)
    (metricIdx : ℕ) (asc : Bool) (topN : ℕ) (rows : List Row) : List Row :=
  ((sortValues metricIdx asc rows).take topN).map
    (projCols nameIdx valIdx wgtIdx ownIdx)

/-! ### Aggregates (lines 115-125) -/

/-- Embeds `pd.to_numeric(df_f[val_col], errors="coerce").sum()`: the
skip-NA sum, so nulls and unparseable cells contribute zero. -/
def totalValuation (valIdx : ℕ) (rows : List Row) : ℚ :=
  (rows.map (fun r => (toNumericCoerce (cell r valIdx)).getD 0)).sum

/-- Skip-NA sum of a stored numeric column (`Series.sum()`), used for the
weight share. -/
def sumCol (i : ℕ) (rows : List Row) : ℚ :=
  (rows.map (fun r => (sortKey (cell r i)).getD 0)).sum

/-- Embeds lines 118-120: `topN_share = 0.0`, then if the weight column
exists, the sum of its values over the first `top_n` rows of the view
sorted descending by valuation. -/
def topNShare (valIdx : ℕ) (wgtIdx : Option ℕ) (topN : ℕ) (rows : List Row) : ℚ :=
  match wgtIdx with
  | none => 0
  | some w => sumCol w ((sortValues valIdx false rows).take topN)

/-- What the share metric renders as. -/
inductive ShareDisplay where
  | dash
  | pct (q : ℚ)
deriving DecidableEq

/-- Embeds `f"{topN_share:.2f}%" if topN_share else "-"`: Python treats
`0.0` as falsy, so a zero share renders as the dash. -/
def shareDisplay (s : ℚ) : ShareDisplay :=
  if s = 0 then .dash else .pct s

/-! ### Data loader and session start (lines 18-40) -/

/-- The encodings `load_np_data` tries, in their fixed order. -/
inductive Enc where
  | utf8
  | utf8sig
  | cp949
  | euckr
deriving DecidableEq

/-- Encoding order of the loader loop: `["utf-8", "utf-8-sig", "cp949", "euc-kr"]`. -/
def encOrder : List Enc := [.utf8, .utf8sig, .cp949, .euckr]

/-- A file in the working directory.  `parse e` is the outcome of
`pd.read_csv(io.BytesIO(raw), encoding=e)` on its bytes: `none` when that
raises, `some df` when it parses.  Decoding itself is the external
library; the loader logic under verification only branches on these
outcomes. -/
structure CsvFile where
  name : String
  parse : Enc → Option DataFrame

/-- Filename hint token of the loader (`"국민연금" in p`). -/
def hintTok : String := "국민연금"

/-- Does the filename match the glob pattern `*.csv`? -/
def isCsvName (s : String) : Bool :=
  chStartsWith ".csv".data.reverse s.data.reverse

/-- Python string `<` as `sorted` uses it: code-point lexicographic
order, which is exactly Lean's `String` order. -/
def strLtB (a b : String) : Bool := decide (a < b)

/-- Strictly-before relation of the filename sort. -/
def fileLt (f g : CsvFile) : Bool := strLtB f.name g.name

/-- Embeds `sorted(...)` on filenames. -/
def sortFiles (fs : List CsvFile) : List CsvFile :=
  insSortBy fileLt fs

/-- Embeds the candidate enumeration:
`cand = sorted([p for p in glob.glob("*.csv") if "국민연금" in p])`, falling
back to `sorted(glob.glob("*.csv"))` when no name carries the hint. -/
def candidates (files : List CsvFile) : List CsvFile :=
  let cs := files.filter (fun f => isCsvName f.name)
  let withHint := cs.filter (fun f => strContainsB f.name hintTok)
  if withHint.isEmpty then sortFiles cs else sortFiles withHint

/-- Inner loop of the loader: first encoding that parses the file. -/
def tryEncs (f : CsvFile) : List Enc → Option (DataFrame × String)
  | [] => none
  | e :: es =>
    match f.parse e with
    | some df => some (df, f.name)
    | none => tryEncs f es

/-- Outer loop of the loader: first file with a working encoding. -/
def tryFiles : List CsvFile → Option (DataFrame × String)
  | [] => none
  | f :: fs =>
    match tryEncs f encOrder with
    | some r => some r
    | none => tryFiles fs

/-- Embeds `load_np_data`: candidate enumeration, the nested
file-by-encoding search, and `(None, None)` when nothing works. -/
def loadNpData (files : List CsvFile) : Option (DataFrame × String) :=
  if (candidates files).isEmpty then none
  else tryFiles (candidates files)

/-- Every successful file-plus-encoding parse, listed in the search order
(candidates in filename order, each with the encodings in `encOrder`). -/
def allSuccesses (files : List CsvFile) : List (DataFrame × String) :=
  (candidates files).flatMap
    (fun f => encOrder.filterMap (fun e => (f.parse e).map (fun d => (d, f.name))))

/-- What the page does right after the load (lines 37-40): halt with an
error when the loader returned nothing, otherwise keep running with the
loaded frame. -/
inductive LoadOutcome where
  | halted
  | running (df : DataFrame) (fname : String)
deriving DecidableEq

/-- Embeds `df, used_file = load_np_data(); if df is None: st.error(...); st.stop()`. -/
def appAfterLoad (files : List CsvFile) : LoadOutcome :=
  match loadNpData files with
  | none => .halted
  | some (df, f) => .running df f

/-! ### Session state for the filter block (lines 89-97) -/

/-- The two frame variables the filter block touches: the normalized base
frame `df` and the derived view `df_f`. -/
structure AppState where
  base : List Row
  view : List Row
deriving DecidableEq

/-- Embeds the filter block as a state update: `df_f = df.copy()` followed
by the filter reassignments writes only `df_f`; the base frame is read,
never written (the copy prevents aliasing). -/
def filterRender (s : AppState) (p : FilterParams) : AppState :=
  { base := s.base, view := applyFilters p s.base }

/-! ### Relations and concrete scenarios used by the claims -/

/-- Range `a` is at least as wide as range `b` on the same column. -/
def widerR (a b : RangeF) : Prop := a.idx = b.idx ∧ a.lo ≤ b.lo ∧ b.hi ≤ a.hi

/-- Optional-range version of `widerR`: both filters must be active on the
same column, or both inactive. -/
def widerOpt : Option RangeF → Option RangeF → Prop
  | none, none => True
  | some a, some b => widerR a b
  | _, _ => False

/-- The spec's keyword scenario: names `["Apple", "BANANA", "cherry"]`. -/
def fruitRows : List Row :=
  [[Value.vstr "Apple"], [Value.vstr "BANANA"], [Value.vstr "cherry"]]

/-- The keyword scenario with a null name inserted, the input that decides
claim C2's null clause. -/
def fruitRowsWithNull : List Row :=
  [[Value.vstr "Apple"], [Value.null], [Value.vstr "cherry"]]

/-- The spec's three-row aggregate scenario
`[("A",100,10,5), ("B",50,20,50), ("C",200,5,1)]`. -/
def holdings3 : List Row :=
  [[Value.vstr "A", Value.num 100, Value.num 10, Value.num 5],
   [Value.vstr "B", Value.num 50, Value.num 20, Value.num 50],
   [Value.vstr "C", Value.num 200, Value.num 5, Value.num 1]]

/-- Seventeen rows tied on the metric column (index 1).  Seventeen is the
smallest length at which numpy's introsort performs a partition pass (its
insertion-sort cutoff is sixteen), so it is the shape on which the
program's default `kind="quicksort"` reorders ties. -/
def ties17 : List Row :=
  (List.range 17).map (fun k => [Value.num k, Value.num 0])

/-- A one-row frame whose weight column (index 1) is present with value
zero: its Top-N share is a genuine `0`. -/
def zeroWeightRows : List Row := [[Value.num 100, Value.num 0]]

/-! ### Helper lemmas -/

lemma keywordStep_eq_filter (p : FilterParams) (rows : List Row) :
    keywordStep p.nameIdx p.keyword rows = rows.filter (kwPred p) := by
  unfold keywordStep kwPred
  by_cases h : trimStr p.keyword = ""
  · simp [h]
  · simp [h]

lemma optRangeStep_eq_filter (oR : Option RangeF) (rows : List Row) :
    optRangeStep oR rows = rows.filter (optRangePred oR) := by
  cases oR with
  | none =>
    have h : optRangePred (none : Option RangeF) = fun _ : Row => true := by
      funext r; rfl
    simp [optRangeStep, h, List.filter_true]
  | some rg => rfl

/-- The four filter steps fuse into one `List.filter` over the input. -/
lemma applyFilters_eq_filter (p : FilterParams) (rows : List Row) :
    applyFilters p rows = rows.filter (pipePred p) := by
  unfold applyFilters pipePred
  rw [keywordStep_eq_filter, optRangeStep_eq_filter, optRangeStep_eq_filter]
  unfold rangeStep
  rw [List.filter_filter, List.filter_filter, List.filter_filter]
  simp only [Bool.and_assoc]

lemma betweenB_mono {v : Option ℚ} {lo1 hi1 lo2 hi2 : ℚ}
    (hlo : lo2 ≤ lo1) (hhi : hi1 ≤ hi2) (h : betweenB v lo1 hi1 = true) :
    betweenB v lo2 hi2 = true := by
  cases v with
  | none => exact absurd h (by simp [betweenB])
  | some q =>
    simp only [betweenB, Bool.and_eq_true, decide_eq_true_eq] at h ⊢
    exact ⟨le_trans hlo h.1, le_trans h.2 hhi⟩

lemma sum_getD_eq_sum_filterMap {α : Type} (f : α → Option ℚ) (l : List α) :
    (l.map (fun x => (f x).getD 0)).sum = (l.filterMap f).sum := by
  induction l with
  | nil => rfl
  | cons a l ih => cases h : f a <;> simp [List.filterMap_cons, h, ih]

lemma tryEncs_eq_head (f : CsvFile) (es : List Enc) :
    tryEncs f es
      = (es.filterMap (fun e => (f.parse e).map (fun d => (d, f.name)))).head? := by
  induction es with
  | nil => rfl
  | cons e es ih =>
    unfold tryEncs
    cases h : f.parse e with
    | some df => simp [List.filterMap_cons, h]
    | none => simp [List.filterMap_cons, h, ih]

lemma tryFiles_eq_head (fs : List CsvFile) :
    tryFiles fs
      = (fs.flatMap
          (fun f => encOrder.filterMap
            (fun e => (f.parse e).map (fun d => (d, f.name))))).head? := by
  induction fs with
  | nil => rfl
  | cons f fs ih =>
    unfold tryFiles
    rw [List.flatMap_cons]
    cases hb : encOrder.filterMap (fun e => (f.parse e).map (fun d => (d, f.name))) with
    | nil => simp [tryEncs_eq_head, hb, ih]
    | cons x xs => simp [tryEncs_eq_head, hb]

lemma insertIns_perm {α : Type} (lt : α → α → Bool) (x : α) :
    ∀ l : List α, (insertIns lt x l).Perm (x :: l)
  | [] => List.Perm.refl _
  | y :: ys => by
    rw [insertIns]
    by_cases h : lt y x = true
    · rw [if_pos h]
      exact ((insertIns_perm lt x ys).cons y).trans (List.Perm.swap x y ys)
    · rw [if_neg h]

lemma insSortBy_perm {α : Type} (lt : α → α → Bool) :
    ∀ l : List α, (insSortBy lt l).Perm l
  | [] => List.Perm.refl _
  | a :: l => by
    have : insSortBy lt (a :: l) = insertIns lt a (insSortBy lt l) := rfl
    rw [this]
    exact (insertIns_perm lt a (insSortBy lt l)).trans ((insSortBy_perm lt l).cons a)

lemma insertIns_pairwise {α : Type} {lt : α → α → Bool}
    (hasym : ∀ x y, lt x y = true → lt y x = false)
    (hco : ∀ x y z, lt z x = true → lt z y = true ∨ lt y x = true)
    (x : α) : ∀ l : List α, l.Pairwise (fun a b => lt b a = false) →
    (insertIns lt x l).Pairwise (fun a b => lt b a = false)
  | [], _ => by simp [insertIns]
  | y :: ys, hl => by
    rw [List.pairwise_cons] at hl
    rw [insertIns]
    by_cases h : lt y x = true
    · rw [if_pos h]
      rw [List.pairwise_cons]
      refine ⟨?_, insertIns_pairwise hasym hco x ys hl.2⟩
      intro z hz
      rcases List.mem_cons.mp ((insertIns_perm lt x ys).mem_iff.mp hz) with rfl | hz'
      · exact hasym y z h
      · exact hl.1 z hz'
    · rw [if_neg h]
      have hyx : lt y x = false := by
        cases hxy : lt y x with
        | false => rfl
        | true => exact absurd hxy h
      rw [List.pairwise_cons]
      refine ⟨?_, List.pairwise_cons.mpr hl⟩
      intro z hz
      rcases List.mem_cons.mp hz with rfl | hz'
      · exact hyx
      · cases hzx : lt z x with
        | false => rfl
        | true =>
          rcases hco x y z hzx with h1 | h1
          · exact absurd h1 (by simp [hl.1 z hz'])
          · exact absurd h1 (by simp [hyx])

lemma insSortBy_pairwise {α : Type} {lt : α → α → Bool}
    (hasym : ∀ x y, lt x y = true → lt y x = false)
    (hco : ∀ x y z, lt z x = true → lt z y = true ∨ lt y x = true) :
    ∀ l : List α, (insSortBy lt l).Pairwise (fun a b => lt b a = false)
  | [] => List.Pairwise.nil
  | a :: l => by
    have : insSortBy lt (a :: l) = insertIns lt a (insSortBy lt l) := rfl
    rw [this]
    exact insertIns_pairwise hasym hco a _ (insSortBy_pairwise hasym hco l)

lemma fileLt_asym (x y : CsvFile) (h : fileLt x y = true) : fileLt y x = false := by
  simp only [fileLt, strLtB, decide_eq_true_eq] at h
  simpa [fileLt, strLtB] using not_lt_of_gt h

lemma fileLt_cotrans (x y z : CsvFile) (h : fileLt z x = true) :
    fileLt z y = true ∨ fileLt y x = true := by
  simp only [fileLt, strLtB, decide_eq_true_eq] at h ⊢
  rcases lt_or_le z.name y.name with h1 | h1
  · exact Or.inl h1
  · exact Or.inr (lt_of_le_of_lt h1 h)

/-- The candidate list is sorted by filename: evidence that the loader
tries candidates in filename order. -/
lemma candidates_sorted (files : List CsvFile) :
    (candidates files).Pairwise (fun f g => f.name ≤ g.name) := by
  have hs : ∀ fs : List CsvFile,
      (sortFiles fs).Pairwise (fun f g => fileLt g f = false) :=
    fun fs => insSortBy_pairwise fileLt_asym fileLt_cotrans fs
  have himp : ∀ f g : CsvFile, fileLt g f = false → f.name ≤ g.name := by
    intro f g h
    simp only [fileLt, strLtB] at h
    exact le_of_not_lt (by simpa using h)
  unfold candidates
  by_cases h : ((files.filter (fun f => isCsvName f.name)).filter
      (fun f => strContainsB f.name hintTok)).isEmpty
  · simp only [h, if_pos]
    exact (hs _).imp (fun hfg => himp _ _ hfg)
  · simp only [h, if_neg, Bool.false_eq_true, not_false_iff]
    exact (hs _).imp (fun hfg => himp _ _ hfg)

/-! ### Sanity checks on the embedding -/

example : normalizeColVals [.vstr "1,000", .vstr "2,500", .vstr "bad"]
    = [.vstr "1000", .vstr "2500", .vstr "bad"] := by decide

example : normalizeColVals [.vstr "1,000", .vstr "2,500"]
    = [.num 1000, .num 2500] := by decide

example : strContainsCI "BANANA" "a" = true := by decide
example : strContainsCI "cherry" "a" = false := by decide
example : strContainsCI "nan" "a" = true := by decide
example : toNumericCoerce (Value.vstr "bad") = none := by decide
example : toNumericCoerce Value.null = none := by decide

/-! ### Claims -/

/-- C9: for every keyword and range filter combination, the filtered view
is a subsequence of the input rows — surviving rows keep their relative
order, and filtering introduces no reordering. -/
theorem C9_filter_preserves_order (p : FilterParams) (rows : List Row) :
    (applyFilters p rows).Sublist rows := by
  rw [applyFilters_eq_filter]
  exact List.filter_sublist rows

/-- C10: the filter block is pure with respect to the base frame: it
writes only the derived view, the base frame's rows, values and order are
unchanged, and re-running the filters on the resulting state sees the
identical base (so a recomputation with any parameters gives the same
result as on the original state). -/
theorem C10_filter_is_pure (s : AppState) (p q : FilterParams) :
    (filterRender s p).base = s.base ∧
    (filterRender s p).view = applyFilters p s.base ∧
    filterRender (filterRender s p) q = filterRender s q :=
  ⟨rfl, rfl, rfl⟩

/-- C5: a row survives a numeric range filter exactly when its coerced
value is a number inside the inclusive bounds; null or unparseable cells
never survive.  The spec's scenario: bounds `[60, 250]` over values
`[100, 50, 200]` keep exactly `100` and `200`. -/
theorem C5_range_filter_inclusive :
    (∀ (i : ℕ) (lo hi : ℚ) (rows : List Row) (r : Row),
      r ∈ rangeStep i lo hi rows ↔
        r ∈ rows ∧ ∃ q, toNumericCoerce (cell r i) = some q ∧ lo ≤ q ∧ q ≤ hi) ∧
    rangeStep 0 60 250 [[Value.num 100], [Value.num 50], [Value.num 200]]
      = [[Value.num 100], [Value.num 200]] := by
  constructor
  · intro i lo hi rows r
    rw [rangeStep, List.mem_filter]
    constructor
    · rintro ⟨hm, hb⟩
      refine ⟨hm, ?_⟩
      cases h : toNumericCoerce (cell r i) with
      | none => rw [h] at hb; simp [betweenB] at hb
      | some q =>
        rw [h] at hb
        simp only [betweenB, Bool.and_eq_true, decide_eq_true_eq] at hb
        exact ⟨q, rfl, hb.1, hb.2⟩
    · rintro ⟨hm, q, hq, h1, h2⟩
      refine ⟨hm, ?_⟩
      rw [hq]
      simp [betweenB, h1, h2]
  · decide

/-- C6: `total_valuation` is the sum of the coerced valuation over exactly
the rows of the view, unparseable and null cells contributing nothing (the
sum ranges over the parseable cells only).  The spec's scenario: values
`100, 50, 200` sum to `350`. -/
theorem C6_total_valuation_sum :
    (∀ (valIdx : ℕ) (p : FilterParams) (rows : List Row),
      totalValuation valIdx (applyFilters p rows)
        = ((applyFilters p rows).filterMap
            (fun r => toNumericCoerce (cell r valIdx))).sum) ∧
    totalValuation 1 holdings3 = 350 := by
  constructor
  · intro valIdx p rows
    exact sum_getD_eq_sum_filterMap _ _
  · show ((holdings3.map (fun r => (toNumericCoerce (cell r 1)).getD 0)).sum) = 350
    norm_num [holdings3, toNumericCoerce, cell]

/-- C2 counterexample: the claim says an active keyword filter excludes
rows with a null `name_col`; in the code `astype(str)` runs first, a null
name becomes the string `"nan"`, and with keyword `"a"` that row is kept
(`"nan"` contains `"a"`). -/
theorem C2_null_row_survives :
    keywordStep 0 "a" fruitRowsWithNull
      = [[Value.vstr "Apple"], [Value.null]] ∧
    astypeStr Value.null = "nan" := by
  constructor
  · decide
  · rfl

/-- C2 (amended): with a non-empty trimmed keyword, the filter keeps
exactly the rows whose stringified name (nulls stringify to `"nan"`)
contains the trimmed keyword case-insensitively; a null name row is kept
precisely when `"nan"` matches, not categorically excluded.  The spec's
scenario over `["Apple", "BANANA", "cherry"]` keeps exactly `"Apple"` and
`"BANANA"`. -/
theorem C2_keyword_filter (nameIdx : ℕ) (kw : String) (rows : List Row) (r : Row)
    (h : trimStr kw ≠ "") :
    (r ∈ keywordStep nameIdx kw rows ↔
      r ∈ rows ∧ strContainsCI (astypeStr (cell r nameIdx)) (trimStr kw) = true) ∧
    keywordStep 0 "a" fruitRows = [[Value.vstr "Apple"], [Value.vstr "BANANA"]] := by
  constructor
  · rw [keywordStep, if_neg h]
    exact List.mem_filter
  · decide

theorem C2_keyword_filter_witness :
    [Value.vstr "Apple"] ∈ keywordStep 0 "a" fruitRows :=
  ((C2_keyword_filter 0 "a" fruitRows [Value.vstr "Apple"] (by decide)).1).mpr
    ⟨by decide, by decide⟩

/-- C4: normalizing a text column is all-or-nothing.  Writing `ss` for the
stringified, comma-stripped cells: if some cell fails to parse, the result
is `ss` kept as a text column with not a single numeric cell (no partial
coercion); if every cell parses, every resulting cell is numeric (or null
for a parsed `"nan"`).  The spec's scenario `["1,000", "2,500", "bad"]`
stays a text column end-to-end. -/
theorem C4_coercion_all_or_nothing (vals : List Value) :
    ((vals.map (fun v => stripCommas (astypeStr v))).all
        (fun s => (strToNumeric s).isSome) = false →
      normalizeColVals vals
          = (vals.map (fun v => stripCommas (astypeStr v))).map .vstr ∧
        ∀ v ∈ normalizeColVals vals, ∀ q : ℚ, v ≠ .num q) ∧
    ((vals.map (fun v => stripCommas (astypeStr v))).all
        (fun s => (strToNumeric s).isSome) = true →
      ∀ v ∈ normalizeColVals vals, (∃ q : ℚ, v = .num q) ∨ v = .null) ∧
    normalizeColVals [.vstr "1,000", .vstr "2,500", .vstr "bad"]
      = [.vstr "1000", .vstr "2500", .vstr "bad"] := by
  refine ⟨?_, ?_, by decide⟩
  · intro hall
    have hres : normalizeColVals vals
        = (vals.map (fun v => stripCommas (astypeStr v))).map .vstr := by
      simp only [normalizeColVals, hall, Bool.false_eq_true, if_false]
    refine ⟨hres, ?_⟩
    intro v hv q
    rw [hres] at hv
    rcases List.mem_map.mp hv with ⟨s, _, rfl⟩
    simp
  · intro hall v hv
    simp only [normalizeColVals, hall, if_true] at hv
    rcases List.mem_map.mp hv with ⟨s, _, rfl⟩
    cases hs : strToNumeric s with
    | none => simp [hs]
    | some oq =>
      cases oq with
      | none => simp [hs]
      | some q => simp [hs]

theorem C4_coercion_witness :
    normalizeColVals [.vstr "1,000", .vstr "2,500", .vstr "bad"]
      = ([Value.vstr "1,000", Value.vstr "2,500", Value.vstr "bad"].map
          (fun v => stripCommas (astypeStr v))).map .vstr :=
  ((C4_coercion_all_or_nothing _).1 (by decide)).1

/-- C8: widening every active range filter (same columns, lower or equal
lower bounds, higher or equal upper bounds) with the same keyword never
decreases the filtered row count; read right-to-left, narrowing never
increases it. -/
theorem C8_widening_monotone (p1 p2 : FilterParams) (rows : List Row)
    (hkw : p2.keyword = p1.keyword) (hn : p2.nameIdx = p1.nameIdx)
    (hv : widerR p2.valR p1.valR)
    (ho : widerOpt p2.ownR p1.ownR) (hw : widerOpt p2.wgtR p1.wgtR) :
    (applyFilters p1 rows).length ≤ (applyFilters p2 rows).length := by
  rw [applyFilters_eq_filter, applyFilters_eq_filter]
  refine List.Sublist.length_le (List.monotone_filter_right rows ?_)
  intro r hr
  simp only [pipePred, Bool.and_eq_true] at hr ⊢
  obtain ⟨hwgt, hown, hval, hkwp⟩ := hr
  refine ⟨?_, ?_, ?_, ?_⟩
  · cases h2 : p2.wgtR with
    | none => rfl
    | some rg2 =>
      cases h1 : p1.wgtR with
      | none => rw [h1, h2] at hw; cases hw
      | some rg1 =>
        rw [h1, h2] at hw
        rw [h1] at hwgt
        simp only [optRangePred] at hwgt ⊢
        rw [hw.1]
        exact betweenB_mono hw.2.1 hw.2.2 hwgt
  · cases h2 : p2.ownR with
    | none => rfl
    | some rg2 =>
      cases h1 : p1.ownR with
      | none => rw [h1, h2] at ho; cases ho
      | some rg1 =>
        rw [h1, h2] at ho
        rw [h1] at hown
        simp only [optRangePred] at hown ⊢
        rw [ho.1]
        exact betweenB_mono ho.2.1 ho.2.2 hown
  · rw [hv.1]
    exact betweenB_mono hv.2.1 hv.2.2 hval
  · unfold kwPred at hkwp ⊢
    rw [hkw, hn]
    exact hkwp

theorem C8_widening_monotone_witness :
    (applyFilters ⟨"", 0, ⟨0, 60, 250⟩, none, none⟩ [[Value.num 50], [Value.num 100]]).length
      ≤ (applyFilters ⟨"", 0, ⟨0, 40, 250⟩, none, none⟩ [[Value.num 50], [Value.num 100]]).length :=
  C8_widening_monotone _ _ _ rfl rfl ⟨rfl, by decide, by decide⟩ trivial trivial

/-- C3 counterexample: the claim says an absent weight column is
distinguishable from a zero share; in the code `topN_share` is `0.0` when
the column is absent and the metric renders `-` for any falsy share, so a
present weight column whose top rows sum to zero renders identically to
the no-data case. -/
theorem C3_zero_share_indistinguishable :
    shareDisplay (topNShare 0 (some 1) 20 zeroWeightRows) = .dash ∧
    shareDisplay (topNShare 0 none 20 zeroWeightRows) = .dash := by
  constructor
  · have h : topNShare 0 (some 1) 20 zeroWeightRows = 0 := by
      simp [topNShare, sumCol, sortValues, insSortBy, insertIns, sortKey, cell,
        zeroWeightRows]
    rw [h]
    rfl
  · rfl

/-- C3 (amended): when the weight column exists, `topN_share` is the sum
of the weights over the first `top_n` rows of the view sorted descending
by valuation; when it is absent, `topN_share` is `0.0`; and the display
renders the dash exactly when the share is zero — so an absent column and
a genuine zero share render identically. -/
theorem C3_topn_share (valIdx wgtIdx topN : ℕ) (rows : List Row) (s : ℚ) :
    (topNShare valIdx (some wgtIdx) topN rows
        = sumCol wgtIdx ((sortValues valIdx false rows).take topN)) ∧
    (topNShare valIdx none topN rows = 0) ∧
    (shareDisplay s = .dash ↔ s = 0) := by
  refine ⟨rfl, rfl, ?_⟩
  unfold shareDisplay
  by_cases h : s = 0
  · simp [h]
  · simp [h]

/-- C7: the loader returns the first successful file-plus-encoding
combination of the ordered search (candidates in sorted filename order,
hint-matching names preferred, each tried with UTF-8, UTF-8-sig, cp949,
euc-kr in that order); when nothing parses it returns nothing and the
caller halts instead of running with a null frame; on success the session
runs with the parsed frame and filename. -/
theorem C7_loader_first_success (files : List CsvFile) :
    loadNpData files = (allSuccesses files).head? ∧
    (loadNpData files = none → appAfterLoad files = .halted) ∧
    (∀ df fname, loadNpData files = some (df, fname) →
      appAfterLoad files = .running df fname) ∧
    (candidates files).Pairwise (fun f g => f.name ≤ g.name) := by
  have h1 : loadNpData files = (allSuccesses files).head? := by
    unfold loadNpData allSuccesses
    cases hc : candidates files with
    | nil => simp
    | cons f fs => simp [tryFiles_eq_head]
  refine ⟨h1, ?_, ?_, candidates_sorted files⟩
  · intro hn
    unfold appAfterLoad
    rw [hn]
  · intro df fname hs
    unfold appAfterLoad
    rw [hs]

theorem C7_loader_witness : appAfterLoad [] = .halted :=
  (C7_loader_first_success []).2.1 rfl

/-- C1, spec-modelled stable ranking evaluated at the failing input: on
seventeen rows tied on the metric, the stable sort the spec mandates
returns the ties in source order, so the ranked table is the input
unchanged.  The program instead calls `sort_values` with the default
unstable `kind="quicksort"`, which permutes seventeen tied rows (numpy's
introsort performs a partition pass above its sixteen-element
insertion-sort cutoff), so the code does not satisfy this. -/
theorem C1_stable_rank_model :
    rankTable 0 1 none none 1 false 20 ties17 = ties17 := by decide

example : rankTable 0 1 (some 2) (some 3) 1 false 2 holdings3
    = [[Value.vstr "C", Value.num 200, Value.num 5, Value.num 1],
       [Value.vstr "A", Value.num 100, Value.num 10, Value.num 5]] := by decide
